import Mathlib

/-!
Verification of the EONET dashboard core (event cache, filter engine,
analytics engine) against its natural-language specification.

The embedding mirrors `app.py`.  JSON numbers (magnitudes, coordinates,
magnitude bounds) are modelled as exact rationals; date values stay the
strings the feed delivers; dictionaries with insertion order are modelled
as association lists; a raised-and-caught per-event exception is modelled
by an `Option`/`Except` failure value.
-/

set_option autoImplicit false

namespace EONET

/-- Possible states of an optional `magnitudeValue` entry of a JSON object,
classified by what Python's `float(value)` would do with it: the key may be
absent, hold `None`, hold a value whose stripped string form is empty, hold
a value parsing as a float (modelled exactly as a rational), or hold an
unparsable value on which `float` raises `ValueError`/`TypeError`. -/
inductive MagField where
  | absent
  | null
  | blank
  | unparsable
  | parsable (q : ℚ)
  deriving DecidableEq

/-- Category reference of an event: identifier (filter key) and display
title (grouping label). -/
structure Category where
  id : String
  title : String
  deriving DecidableEq

/-- Geometry frame of an event: date string, optional coordinate pair
(longitude, latitude), optional magnitude fields.  `coordinates = none`
models a missing or falsy (empty) `coordinates` entry;
`hasMagnitudeUnit` models presence of the `magnitudeUnit` key. -/
structure Geo where
  date : String
  coordinates : Option (ℚ × ℚ)
  magnitudeValue : MagField
  hasMagnitudeUnit : Bool
  deriving DecidableEq

/-- Event record of the events cache payload. -/
structure Event where
  geometry : List Geo
  categories : List Category
  magnitudeValue : MagField
  hasMagnitudeUnit : Bool
  deriving DecidableEq

/-- Value of a `min_magnitude`/`max_magnitude` parameter as the HTTP layer
delivers it: `None`, the empty string (falsy), a nonempty string parsing as
the float `q`, or a nonempty string on which `float` raises. -/
inductive Bound where
  | noneB
  | empty
  | val (q : ℚ)
  | bad
  deriving DecidableEq

/-- Python truthiness of a bound parameter (`if min_magnitude:`). -/
def Bound.truthy : Bound → Bool
  | .noneB => false
  | .empty => false
  | _ => true

/-- Python `bound is not None`. -/
def Bound.notNone : Bound → Bool
  | .noneB => false
  | _ => true

/-- Root magnitude probe of `get_filtered_events` (app.py lines 104-111):
the event-root `magnitudeValue` is used when present, not `None`, not blank
and parsable; in every other case the magnitude stays unresolved
(`ValueError`/`TypeError` are swallowed by the inner handler). -/
def resolveRootMag (e : Event) : Option ℚ :=
  match e.magnitudeValue with
  | .parsable q => some q
  | _ => none

/-- Geometry magnitude scan of `get_filtered_events` (lines 113-122): the
first frame whose `magnitudeValue` is present, not `None`, not blank and
parsable wins; frames where `float` raises are skipped via `continue`. -/
def resolveGeoMag : List Geo → Option ℚ
  | [] => none
  | g :: gs =>
    match g.magnitudeValue with
    | .parsable q => some q
    | _ => resolveGeoMag gs

/-- Effective magnitude of an event: root field first, then geometry frames
in order (spec section 3; `get_filtered_events` lines 101-122). -/
def resolveMagnitude (e : Event) : Option ℚ :=
  match resolveRootMag e with
  | some q => some q
  | none => resolveGeoMag e.geometry

/-- Sequencing of the per-event filter steps: `none` models a raised
exception (the event is skipped by the enclosing `except` handler),
`some false` a `continue` (event dropped), `some true` passes control to
the next step. -/
def chain : Option Bool → (Unit → Option Bool) → Option Bool
  | none, _ => none
  | some false, _ => some false
  | some true, f => f ()

/-- The `start_date` filter (line 94); indexing `event['geometry'][0]`
raises when the geometry list is empty. -/
def startCheck (sd : Option String) (e : Event) : Option Bool :=
  match sd with
  | none => some true
  | some s =>
    match e.geometry.head? with
    | none => none
    | some g => if g.date.take 10 < s then some false else some true

/-- The `end_date` filter (line 96). -/
def endCheck (ed : Option String) (e : Event) : Option Bool :=
  match ed with
  | none => some true
  | some s =>
    match e.geometry.head? with
    | none => none
    | some g => if s < g.date.take 10 then some false else some true

/-- The `event_type` filter (line 98); indexing `event['categories'][0]`
raises when the categories list is empty. -/
def typeCheck (et : Option String) (e : Event) : Option Bool :=
  match et with
  | none => some true
  | some t =>
    match e.categories.head? with
    | none => none
    | some c => if c.id ≠ t then some false else some true

/-- The min-bound test (line 126): a falsy bound is skipped, and
`float(min_magnitude)` raises on a malformed bound string. -/
def boundLow (m : ℚ) : Bound → Option Bool
  | .val q => if m < q then some false else some true
  | .bad => none
  | _ => some true

/-- The max-bound test (line 128). -/
def boundHigh (m : ℚ) : Bound → Option Bool
  | .val q => if q < m then some false else some true
  | .bad => none
  | _ => some true

/-- The magnitude filter block (lines 124-129): entered only when a
magnitude was resolved and at least one bound is not `None`. -/
def magCheck (minB maxB : Bound) (mag : Option ℚ) : Option Bool :=
  match mag with
  | none => some true
  | some m =>
    if minB.notNone || maxB.notNone then
      chain (boundLow m minB) (fun _ => boundHigh m maxB)
    else some true

/-- Per-event body of the `get_filtered_events` loop (lines 92-131):
`none` is a raised exception (event skipped by the `except` handler),
`some false` a `continue`, `some true` an append. -/
def keepEvent (sd ed et : Option String) (minB maxB : Bound) (e : Event) :
    Option Bool :=
  chain (startCheck sd e) fun _ =>
  chain (endCheck ed e) fun _ =>
  chain (typeCheck et e) fun _ =>
  magCheck minB maxB (resolveMagnitude e)

/-- The `get_filtered_events` operation (lines 84-137), returning the
`events` list of the result payload.  `cache = none` models a falsy
(never fetched) events cache. -/
def get_filtered_events (cache : Option (List Event)) (sd ed et : Option String)
    (minB maxB : Bound) : List Event :=
  match cache with
  | none => []
  | some evs => evs.filter (fun e => keepEvent sd ed et minB maxB e == some true)

/-- With no constraints every filter step passes and the event is appended. -/
theorem keepEvent_no_constraints (e : Event) :
    keepEvent none none none .noneB .noneB e = some true := by
  show magCheck .noneB .noneB (resolveMagnitude e) = some true
  cases h : resolveMagnitude e <;> rfl

/-- Unconstrained filtering is the identity on the cached list. -/
theorem filter_id_aux (evs : List Event) :
    get_filtered_events (some evs) none none none .noneB .noneB = evs := by
  unfold get_filtered_events
  refine List.filter_eq_self.mpr (fun e _ => ?_)
  simp [keepEvent_no_constraints e]

/-- C5: for every non-empty cache, `filterEvents` with no constraints (no
start date, no end date, no category, no magnitude bounds) returns exactly
the full cached event sequence in original insertion order. -/
theorem filter_no_constraints_identity (evs : List Event) :
    get_filtered_events (some evs) none none none .noneB .noneB = evs :=
  filter_id_aux evs

/-- C6: with an explicit date window and no other constraints, an event
whose first geometry frame is `g` is in the filter output exactly when it is
cached and its representative date (the frame's date truncated to 10
characters) satisfies `start ≤ date ≤ end` under lexicographic string
comparison; boundary dates are included. -/
theorem date_window_inclusive (evs : List Event) (e : Event) (g : Geo)
    (s en : String) (hg : e.geometry.head? = some g) :
    e ∈ get_filtered_events (some evs) (some s) (some en) none .noneB .noneB ↔
      e ∈ evs ∧ s ≤ g.date.take 10 ∧ g.date.take 10 ≤ en := by
  have hk : (keepEvent (some s) (some en) none .noneB .noneB e = some true) ↔
      (s ≤ g.date.take 10 ∧ g.date.take 10 ≤ en) := by
    unfold keepEvent startCheck endCheck typeCheck
    rw [hg]
    by_cases h1 : g.date.take 10 < s
    · simp [chain, h1, not_le.mpr h1]
    · by_cases h2 : en < g.date.take 10
      · simp [chain, h1, h2, not_le.mpr h2]
      · cases hm : resolveMagnitude e <;>
          simp [chain, h1, h2, magCheck, Bound.notNone, not_lt.mp h1, not_lt.mp h2]
  unfold get_filtered_events
  rw [List.mem_filter]
  simp [hk]

/-- Concrete event for the C6 witness. -/
def gWindow : Geo :=
  { date := "2024-01-05T00:00:00Z", coordinates := none,
    magnitudeValue := .absent, hasMagnitudeUnit := false }

/-- Concrete event for the C6 witness. -/
def eWindow : Event :=
  { geometry := [gWindow], categories := [], magnitudeValue := .absent,
    hasMagnitudeUnit := false }

/-- Witness for C6 at a boundary date equal to both window ends. -/
theorem date_window_inclusive_witness :
    eWindow.geometry.head? = some gWindow ∧
    (eWindow ∈ get_filtered_events (some [eWindow]) (some "2024-01-05")
        (some "2024-01-05") none .noneB .noneB ↔
      eWindow ∈ [eWindow] ∧ "2024-01-05" ≤ gWindow.date.take 10 ∧
        gWindow.date.take 10 ≤ "2024-01-05") :=
  ⟨rfl, date_window_inclusive [eWindow] eWindow gWindow "2024-01-05" "2024-01-05" rfl⟩

/-- Inclusive range membership dictated by the given bounds; a missing bound
imposes no constraint on its side. -/
def withinRange (minB maxB : Bound) (m : ℚ) : Prop :=
  (∀ q, minB = .val q → q ≤ m) ∧ (∀ q, maxB = .val q → m ≤ q)

/-- Bound parameter as documented for callers: absent (`None`) or a
nonempty parsable decimal string. -/
def Bound.wellFormed : Bound → Prop
  | .noneB => True
  | .val _ => True
  | _ => False

/-- C3: for a magnitude-range request through well-formed parameters with at
least one bound given, an event with a resolved effective magnitude is kept
exactly when the magnitude lies in the inclusive range, and an event whose
magnitude cannot be resolved is never dropped by the magnitude filter. -/
theorem magnitude_filter_range_spec (e : Event) (minB maxB : Bound)
    (hmin : minB.wellFormed) (hmax : maxB.wellFormed)
    (hgiven : minB ≠ .noneB ∨ maxB ≠ .noneB) :
    (∀ m, resolveMagnitude e = some m →
      (keepEvent none none none minB maxB e = some true ↔ withinRange minB maxB m)) ∧
    (resolveMagnitude e = none →
      keepEvent none none none minB maxB e = some true) := by
  constructor
  · intro m hm
    show magCheck minB maxB (resolveMagnitude e) = some true ↔ _
    rw [hm]
    rcases minB with _ | _ | p | _ <;> rcases maxB with _ | _ | q | _ <;>
      first
        | exact False.elim hmin
        | exact False.elim hmax
        | skip
    · simp [magCheck, Bound.notNone, withinRange]
    · by_cases h : q < m
      · simp [magCheck, Bound.notNone, chain, boundLow, boundHigh, withinRange,
          h, not_le.mpr h]
      · simp [magCheck, Bound.notNone, chain, boundLow, boundHigh, withinRange,
          h, not_lt.mp h]
    · by_cases h : m < p
      · simp [magCheck, Bound.notNone, chain, boundLow, boundHigh, withinRange,
          h, not_le.mpr h]
      · simp [magCheck, Bound.notNone, chain, boundLow, boundHigh, withinRange,
          h, not_lt.mp h]
    · by_cases h1 : m < p
      · simp [magCheck, Bound.notNone, chain, boundLow, boundHigh, withinRange,
          h1, not_le.mpr h1]
      · by_cases h2 : q < m
        · simp [magCheck, Bound.notNone, chain, boundLow, boundHigh, withinRange,
            h1, h2, not_le.mpr h2]
        · simp [magCheck, Bound.notNone, chain, boundLow, boundHigh, withinRange,
            h1, h2, not_lt.mp h1, not_lt.mp h2]
  · intro hm
    show magCheck minB maxB (resolveMagnitude e) = some true
    rw [hm]
    rfl

/-- The `get_region_name` helper (app.py lines 451-464): classify a latitude
into one of six fixed bands through an if/elif chain with strict lower
bounds. -/
def get_region_name (lat : ℚ) : String :=
  if lat > 66.5 then "Arctic"
  else if lat > 23.5 then "Northern Hemisphere"
  else if lat > 0 then "Tropics (North)"
  else if lat > -23.5 then "Tropics (South)"
  else if lat > -66.5 then "Southern Hemisphere"
  else "Antarctic"

/-- Keys of the `regions` dict of `get_geographic_data` (lines 393-400), in
its insertion order. -/
def regionNames : List String :=
  ["Antarctic", "Arctic", "Northern Hemisphere", "Southern Hemisphere",
   "Tropics (North)", "Tropics (South)"]

/-- The six regions dict initialised to zero. -/
def initRegions : List (String × Nat) := regionNames.map (fun r => (r, 0))

/-- Insertion-ordered dict increment `d[k] = d.get(k, 0) + 1`: bump an
existing entry in place, else append a fresh entry with count 1. -/
def bump : List (String × Nat) → String → List (String × Nat)
  | [], k => [(k, 1)]
  | (k', v) :: rest, k =>
    if k' = k then (k', v + 1) :: rest else (k', v) :: bump rest k

/-- Loop body of `get_geographic_data` (lines 402-406): classify only events
whose geometry is truthy and whose first frame has a truthy coordinates
entry; the latitude is the second coordinate.  The region key always exists
in the six-entry dict, so the increment never inserts. -/
def geoStep (regs : List (String × Nat)) (e : Event) : List (String × Nat) :=
  match e.geometry.head? with
  | none => regs
  | some g =>
    match g.coordinates with
    | none => regs
    | some c => bump regs (get_region_name c.2)

/-- The `get_geographic_data` endpoint body (lines 387-414): per-region
counts over the unfiltered event list, reported in dict order. -/
def get_geographic_data (cache : Option (List Event)) : List (String × Nat) :=
  (get_filtered_events cache none none none .noneB .noneB).foldl geoStep initRegions

/-- Event owns a resolvable representative coordinate: nonempty geometry
whose first frame has a truthy coordinates entry. -/
def hasCoord (e : Event) : Bool :=
  match e.geometry.head? with
  | none => false
  | some g => g.coordinates.isSome

/-- Region classification always lands in the fixed six-name list. -/
theorem get_region_name_mem (lat : ℚ) : get_region_name lat ∈ regionNames := by
  unfold get_region_name regionNames
  split_ifs <;> simp

/-- Bumping distributes a +1 onto the total of the counts. -/
theorem bump_snd_sum (l : List (String × Nat)) (k : String) :
    ((bump l k).map Prod.snd).sum = (l.map Prod.snd).sum + 1 := by
  induction l with
  | nil => simp [bump]
  | cons p rest ih =>
    obtain ⟨k', v⟩ := p
    by_cases h : k' = k
    · simp only [bump, if_pos h, List.map_cons, List.sum_cons]
      omega
    · simp only [bump, if_neg h, List.map_cons, List.sum_cons, ih]
      omega

/-- Bumping a key already present leaves the key list unchanged. -/
theorem bump_fst_of_mem (l : List (String × Nat)) (k : String)
    (h : k ∈ l.map Prod.fst) : (bump l k).map Prod.fst = l.map Prod.fst := by
  induction l with
  | nil => simp at h
  | cons p rest ih =>
    obtain ⟨k', v⟩ := p
    by_cases hk : k' = k
    · simp [bump, hk]
    · simp only [List.map_cons, List.mem_cons] at h
      rcases h with h | h
      · exact absurd h.symm hk
      · simp [bump, hk, ih h]

/-- One geographic fold step preserves the six keys and adds the event's
coordinate flag to the total. -/
theorem geoStep_spec (regs : List (String × Nat)) (e : Event)
    (hkeys : regs.map Prod.fst = regionNames) :
    (geoStep regs e).map Prod.fst = regionNames ∧
    ((geoStep regs e).map Prod.snd).sum =
      (regs.map Prod.snd).sum + (if hasCoord e then 1 else 0) := by
  unfold geoStep hasCoord
  cases hg : e.geometry.head? with
  | none => simp [hkeys]
  | some g =>
    cases hc : g.coordinates with
    | none => simp [hc, hkeys]
    | some c =>
      simp only [hc, Option.isSome_some, if_pos]
      refine ⟨?_, by simp [bump_snd_sum]⟩
      rw [bump_fst_of_mem _ _ (by rw [hkeys]; exact get_region_name_mem c.2)]
      exact hkeys

/-- Folding the geographic step over any event list keeps the six keys and
accumulates one count per event with a resolvable coordinate. -/
theorem geoFold_spec (evs : List Event) (regs : List (String × Nat))
    (hkeys : regs.map Prod.fst = regionNames) :
    ((evs.foldl geoStep regs).map Prod.fst = regionNames) ∧
    (((evs.foldl geoStep regs).map Prod.snd).sum =
      (regs.map Prod.snd).sum + (evs.filter hasCoord).length) := by
  induction evs generalizing regs with
  | nil => simp [hkeys]
  | cons e rest ih =>
    obtain ⟨h1, h2⟩ := geoStep_spec regs e hkeys
    obtain ⟨ih1, ih2⟩ := ih (geoStep regs e) h1
    refine ⟨ih1, ?_⟩
    rw [List.foldl_cons, ih2, h2, List.filter_cons]
    cases h : hasCoord e
    · simp
    · simp
      omega

/-- C8: the geographic distribution reports exactly the six fixed regions,
in the dict's insertion order, each present even at count zero, and the six
counts sum to the number of cached events that have a resolvable
representative coordinate. -/
theorem geographic_six_regions_sum (evs : List Event) :
    (get_geographic_data (some evs)).map Prod.fst = regionNames ∧
    ((get_geographic_data (some evs)).map Prod.snd).sum =
      (evs.filter hasCoord).length := by
  unfold get_geographic_data
  rw [filter_id_aux]
  obtain ⟨h1, h2⟩ := geoFold_spec evs initRegions (by rfl)
  refine ⟨h1, ?_⟩
  rw [h2]
  simp [initRegions, regionNames]

/-- C10: band boundaries of region classification are exclusive on the
lower side, and every latitude maps to exactly one of the six regions. -/
theorem region_boundaries_total :
    get_region_name 0 = "Tropics (South)" ∧
    get_region_name 23.5 = "Tropics (North)" ∧
    get_region_name 66.5 = "Northern Hemisphere" ∧
    get_region_name (-23.5) = "Southern Hemisphere" ∧
    get_region_name (-66.5) = "Antarctic" ∧
    ∀ lat : ℚ, get_region_name lat ∈ regionNames := by
  refine ⟨?_, ?_, ?_, ?_, ?_, get_region_name_mem⟩ <;>
    norm_num [get_region_name]

/-- Mutable fetch-related fields of the EONETData handler. -/
structure CacheState where
  events_cache : Option (List Event)
  categories_cache : Option (List Category)
  last_update : Option Nat
  deriving DecidableEq

/-- The `fetch_events` operation (app.py lines 49-71).  The network round
trip, `raise_for_status` and `response.json()` are collapsed into one
`Except` argument whose error covers transport failures, non-success
statuses and undecodable payloads; on success the events cache and the
`last_update` timestamp are replaced under the lock and `True` is returned,
on any failure the state is returned untouched with `False`. -/
def fetch_events (st : CacheState) (resp : Except Unit (List Event))
    (now : Nat) : CacheState × Bool :=
  match resp with
  | .error _ => (st, false)
  | .ok payload =>
    ({ st with events_cache := some payload, last_update := some now }, true)

/-- The `fetch_categories` operation (lines 73-82). -/
def fetch_categories (st : CacheState) (resp : Except Unit (List Category)) :
    CacheState × Bool :=
  match resp with
  | .error _ => (st, false)
  | .ok payload => ({ st with categories_cache := some payload }, true)

/-- C9: a failing refresh (transport error, non-success status or
undecodable payload) leaves the cached payloads and the fetched-at
timestamp completely unchanged and reports the failure as a boolean
result. -/
theorem fetch_failure_leaves_cache (st : CacheState) (now : Nat) :
    fetch_events st (.error ()) now = (st, false) ∧
    fetch_categories st (.error ()) = (st, false) :=
  ⟨rfl, rfl⟩

/-- Aggregates of `get_summary_statistics` (app.py lines 229-285); the
three magnitude buckets are split into separate fields, dicts are
insertion-ordered association lists. -/
structure Stats where
  event_count : Nat
  categories : List (String × Nat)
  mag_low : Nat
  mag_medium : Nat
  mag_high : Nat
  daily_counts : List (String × Nat)
  deriving DecidableEq

/-- Geometry arm of the summary magnitude resolution (lines 264-269): the
first frame carrying both a `magnitudeValue` and a `magnitudeUnit` key is
chosen, and `float` on its value either yields the magnitude or raises out
of the whole event (error); frames missing either key are skipped; when no
frame qualifies the magnitude stays unresolved. -/
def sumGeoMag : List Geo → Except Unit (Option ℚ)
  | [] => .ok none
  | g :: gs =>
    match g.magnitudeValue, g.hasMagnitudeUnit with
    | .absent, _ => sumGeoMag gs
    | _, false => sumGeoMag gs
    | .parsable q, true => .ok (some q)
    | _, true => .error ()

/-- Summary-statistics magnitude resolution (lines 257-269): the event root
is consulted only when both `magnitudeValue` and `magnitudeUnit` keys are
present, in which case `float` on the root value either yields the
magnitude or raises (error, abandoning the event's remaining processing);
otherwise the geometry frames are scanned.  This differs from
`resolveMagnitude`, the filter engine's root-then-geometry rule. -/
def summaryMagnitude (e : Event) : Except Unit (Option ℚ) :=
  match e.magnitudeValue, e.hasMagnitudeUnit with
  | .absent, _ => sumGeoMag e.geometry
  | _, false => sumGeoMag e.geometry
  | .parsable q, true => .ok (some q)
  | _, true => .error ()

/-- Per-event body of the `get_summary_statistics` loop (lines 247-283):
the aggregates are updated in program order and a raised per-event
exception abandons the event there, keeping the updates already applied. -/
def processEvent (s : Stats) (e : Event) : Stats :=
  match e.categories.head? with
  | none => s
  | some c =>
    let s1 := { s with categories := bump s.categories c.title }
    match e.geometry.head? with
    | none => s1
    | some g =>
      let s2 := { s1 with daily_counts := bump s1.daily_counts (g.date.take 10) }
      match summaryMagnitude e with
      | .error _ => s2
      | .ok none => { s2 with mag_low := s2.mag_low + 1 }
      | .ok (some m) =>
        if m < 1.5 then { s2 with mag_low := s2.mag_low + 1 }
        else if m < 5.0 then { s2 with mag_medium := s2.mag_medium + 1 }
        else { s2 with mag_high := s2.mag_high + 1 }

/-- The `get_summary_statistics` operation (lines 229-285): `event_count`
is the raw length of the cached list, the other aggregates are folded per
event with per-event exception tolerance. -/
def get_summary_statistics (cache : Option (List Event)) : Stats :=
  match cache with
  | none => ⟨0, [], 0, 0, 0, []⟩
  | some evs => evs.foldl processEvent ⟨evs.length, [], 0, 0, 0, []⟩

/-- Event reaches the magnitude-classification lines of the summary loop:
both the category and the date extraction succeeded before them. -/
def magEvaluable (e : Event) : Bool :=
  !e.categories.isEmpty && !e.geometry.isEmpty

/-- Event is tallied into the low bucket by the summary loop. -/
def isLowE (e : Event) : Bool :=
  magEvaluable e &&
    match summaryMagnitude e with
    | .ok none => true
    | .ok (some m) => if m < 1.5 then true else false
    | .error _ => false

/-- Event is tallied into the medium bucket by the summary loop. -/
def isMedE (e : Event) : Bool :=
  magEvaluable e &&
    match summaryMagnitude e with
    | .ok (some m) => if m < 1.5 then false else if m < 5.0 then true else false
    | _ => false

/-- Event is tallied into the high bucket by the summary loop. -/
def isHighE (e : Event) : Bool :=
  magEvaluable e &&
    match summaryMagnitude e with
    | .ok (some m) => if m < 1.5 then false else if m < 5.0 then false else true
    | _ => false

/-- First-category title of an event, when the categories list is
nonempty. -/
def catKey (e : Event) : Option String := e.categories.head?.map Category.title

/-- Daily-count key of an event: defined only when both the category and
the date extraction of the summary loop succeed. -/
def dailyKey (e : Event) : Option String :=
  match e.categories.head?, e.geometry.head? with
  | some _, some g => some (g.date.take 10)
  | _, _ => none

/-- One summary step never touches the event count. -/
theorem processEvent_event_count (s : Stats) (e : Event) :
    (processEvent s e).event_count = s.event_count := by
  obtain ⟨geom, cats, mv, hu⟩ := e
  cases cats with
  | nil => rfl
  | cons c cs =>
    cases geom with
    | nil => rfl
    | cons g gs =>
      simp only [processEvent, List.head?_cons]
      cases hm : summaryMagnitude ⟨g :: gs, c :: cs, mv, hu⟩ with
      | error u => simp [hm]
      | ok o =>
        cases o with
        | none => simp [hm]
        | some m =>
          by_cases h1 : m < 1.5
          · simp [hm, h1]
          · by_cases h2 : m < 5.0 <;> simp [hm, h1, h2]

/-- One summary step adds the event's low flag to the low bucket. -/
theorem processEvent_mag_low (s : Stats) (e : Event) :
    (processEvent s e).mag_low = s.mag_low + (if isLowE e then 1 else 0) := by
  obtain ⟨geom, cats, mv, hu⟩ := e
  cases cats with
  | nil => simp [processEvent, isLowE, magEvaluable]
  | cons c cs =>
    cases geom with
    | nil => simp [processEvent, isLowE, magEvaluable]
    | cons g gs =>
      simp only [processEvent, isLowE, magEvaluable, List.head?_cons]
      split <;> rename_i hm
      · simp [hm]
      · simp [hm]
      · rename_i m
        by_cases h1 : m < 1.5
        · simp [hm, h1]
        · by_cases h2 : m < 5.0
          · simp [hm, h1, h2]
          · simp [hm, h1, h2]

/-- One summary step adds the event's medium flag to the medium bucket. -/
theorem processEvent_mag_medium (s : Stats) (e : Event) :
    (processEvent s e).mag_medium = s.mag_medium + (if isMedE e then 1 else 0) := by
  obtain ⟨geom, cats, mv, hu⟩ := e
  cases cats with
  | nil => simp [processEvent, isMedE, magEvaluable]
  | cons c cs =>
    cases geom with
    | nil => simp [processEvent, isMedE, magEvaluable]
    | cons g gs =>
      simp only [processEvent, isMedE, magEvaluable, List.head?_cons]
      split <;> rename_i hm
      · simp [hm]
      · simp [hm]
      · rename_i m
        by_cases h1 : m < 1.5
        · simp [hm, h1]
        · by_cases h2 : m < 5.0
          · simp [hm, h1, h2]
          · simp [hm, h1, h2]

/-- One summary step adds the event's high flag to the high bucket. -/
theorem processEvent_mag_high (s : Stats) (e : Event) :
    (processEvent s e).mag_high = s.mag_high + (if isHighE e then 1 else 0) := by
  obtain ⟨geom, cats, mv, hu⟩ := e
  cases cats with
  | nil => simp [processEvent, isHighE, magEvaluable]
  | cons c cs =>
    cases geom with
    | nil => simp [processEvent, isHighE, magEvaluable]
    | cons g gs =>
      simp only [processEvent, isHighE, magEvaluable, List.head?_cons]
      split <;> rename_i hm
      · simp [hm]
      · simp [hm]
      · rename_i m
        by_cases h1 : m < 1.5
        · simp [hm, h1]
        · by_cases h2 : m < 5.0
          · simp [hm, h1, h2]
          · simp [hm, h1, h2]

/-- One summary step bumps the daily dict exactly at the event's daily
key. -/
theorem processEvent_daily (s : Stats) (e : Event) :
    (processEvent s e).daily_counts =
      (match dailyKey e with
       | none => s.daily_counts
       | some k => bump s.daily_counts k) := by
  obtain ⟨geom, cats, mv, hu⟩ := e
  cases cats with
  | nil => rfl
  | cons c cs =>
    cases geom with
    | nil => rfl
    | cons g gs =>
      simp only [processEvent, dailyKey, List.head?_cons]
      cases hm : summaryMagnitude ⟨g :: gs, c :: cs, mv, hu⟩ with
      | error u => simp [hm]
      | ok o =>
        cases o with
        | none => simp [hm]
        | some m =>
          by_cases h1 : m < 1.5
          · simp [hm, h1]
          · by_cases h2 : m < 5.0 <;> simp [hm, h1, h2]

/-- One summary step bumps the category dict exactly at the event's
first-category title. -/
theorem processEvent_cats (s : Stats) (e : Event) :
    (processEvent s e).categories =
      (match catKey e with
       | none => s.categories
       | some t => bump s.categories t) := by
  obtain ⟨geom, cats, mv, hu⟩ := e
  cases cats with
  | nil => rfl
  | cons c cs =>
    cases geom with
    | nil => rfl
    | cons g gs =>
      simp only [processEvent, catKey, List.head?_cons]
      cases hm : summaryMagnitude ⟨g :: gs, c :: cs, mv, hu⟩ with
      | error u => simp [hm]
      | ok o =>
        cases o with
        | none => simp [hm]
        | some m =>
          by_cases h1 : m < 1.5
          · simp [hm, h1]
          · by_cases h2 : m < 5.0 <;> simp [hm, h1, h2]

/-- The summary fold leaves the event count at its initial value. -/
theorem foldl_event_count (evs : List Event) (s : Stats) :
    (evs.foldl processEvent s).event_count = s.event_count := by
  induction evs generalizing s with
  | nil => rfl
  | cons e rest ih => rw [List.foldl_cons, ih, processEvent_event_count]

/-- The summary fold adds one low count per low-classified event. -/
theorem foldl_mag_low (evs : List Event) (s : Stats) :
    (evs.foldl processEvent s).mag_low = s.mag_low + (evs.filter isLowE).length := by
  induction evs generalizing s with
  | nil => simp
  | cons e rest ih =>
    rw [List.foldl_cons, ih, processEvent_mag_low, List.filter_cons]
    cases h : isLowE e
    · simp
    · simp
      omega

/-- The summary fold adds one medium count per medium-classified event. -/
theorem foldl_mag_medium (evs : List Event) (s : Stats) :
    (evs.foldl processEvent s).mag_medium =
      s.mag_medium + (evs.filter isMedE).length := by
  induction evs generalizing s with
  | nil => simp
  | cons e rest ih =>
    rw [List.foldl_cons, ih, processEvent_mag_medium, List.filter_cons]
    cases h : isMedE e
    · simp
    · simp
      omega

/-- The summary fold adds one high count per high-classified event. -/
theorem foldl_mag_high (evs : List Event) (s : Stats) :
    (evs.foldl processEvent s).mag_high =
      s.mag_high + (evs.filter isHighE).length := by
  induction evs generalizing s with
  | nil => simp
  | cons e rest ih =>
    rw [List.foldl_cons, ih, processEvent_mag_high, List.filter_cons]
    cases h : isHighE e
    · simp
    · simp
      omega

/-- The summary fold bumps the daily dict exactly at the defined daily
keys, in order. -/
theorem foldl_daily (evs : List Event) (s : Stats) :
    (evs.foldl processEvent s).daily_counts =
      (evs.filterMap dailyKey).foldl bump s.daily_counts := by
  induction evs generalizing s with
  | nil => rfl
  | cons e rest ih =>
    rw [List.foldl_cons, ih, processEvent_daily]
    cases hk : dailyKey e
    · simp [List.filterMap_cons, hk]
    · simp [List.filterMap_cons, hk]

/-- The summary fold bumps the category dict exactly at the defined
first-category titles, in order. -/
theorem foldl_cats (evs : List Event) (s : Stats) :
    (evs.foldl processEvent s).categories =
      (evs.filterMap catKey).foldl bump s.categories := by
  induction evs generalizing s with
  | nil => rfl
  | cons e rest ih =>
    rw [List.foldl_cons, ih, processEvent_cats]
    cases hk : catKey e
    · simp [List.filterMap_cons, hk]
    · simp [List.filterMap_cons, hk]

/-- Folding bumps over a key list adds the number of keys to the total of
the dict values. -/
theorem foldl_bump_sum (ks : List String) (l : List (String × Nat)) :
    (((ks.foldl bump l)).map Prod.snd).sum = (l.map Prod.snd).sum + ks.length := by
  induction ks generalizing l with
  | nil => simp
  | cons k rest ih =>
    rw [List.foldl_cons, ih, bump_snd_sum]
    simp
    omega

/-- C1 counterexample event: the event root carries the parsable magnitude
0.5 but no `magnitudeUnit` key, while the first geometry frame carries
magnitude 6.0 together with a unit. -/
def eRootNoUnit : Event :=
  { geometry := [{ date := "2024-01-01T00:00:00Z", coordinates := none,
                   magnitudeValue := .parsable 6, hasMagnitudeUnit := true }],
    categories := [{ id := "wildfires", title := "Wildfires" }],
    magnitudeValue := .parsable (1/2), hasMagnitudeUnit := false }

/-- C1 counterexample: the effective magnitude of `eRootNoUnit` under the
root-then-geometry rule is 0.5, which is below 1.5, so the claim demands a
low-bucket count of 1; the summary statistics instead skip the unitless
root, classify by the geometry magnitude 6.0 and count the event high. -/
theorem summary_buckets_not_effective_magnitude_cex :
    resolveMagnitude eRootNoUnit = some (1/2) ∧
    ((1 : ℚ)/2 < 1.5) ∧
    (get_summary_statistics (some [eRootNoUnit])).mag_low = 0 ∧
    (get_summary_statistics (some [eRootNoUnit])).mag_high = 1 := by
  have hsm : summaryMagnitude eRootNoUnit = .ok (some 6) := rfl
  have h1 : ¬ ((6 : ℚ) < 1.5) := by norm_num
  have h2 : ¬ ((6 : ℚ) < 5.0) := by norm_num
  refine ⟨rfl, by norm_num, ?_, ?_⟩
  · show (List.foldl processEvent ⟨1, [], 0, 0, 0, []⟩ [eRootNoUnit]).mag_low = 0
    rw [foldl_mag_low]
    have hl : isLowE eRootNoUnit = false := by
      simp only [isLowE, hsm]
      simp [h1]
    simp [List.filter_cons, hl]
  · show (List.foldl processEvent ⟨1, [], 0, 0, 0, []⟩ [eRootNoUnit]).mag_high = 1
    rw [foldl_mag_high]
    have hh : isHighE eRootNoUnit = true := by
      have hmev : magEvaluable eRootNoUnit = true := rfl
      simp only [isHighE, hsm, hmev]
      simp [h1, h2]
    simp [List.filter_cons, hh]

/-- C1 amended: the summary-statistics bucket counts tally exactly the
events classified low, medium and high by the summary loop's own
resolution (`summaryMagnitude`: the root only when both magnitude keys are
present, else the first geometry frame with both keys; an unparsable value
at the chosen site aborts the event, leaving it in no bucket; a
no-magnitude outcome counts low), restricted to events whose category and
date extraction succeeded, with thresholds 1.5 and 5.0. -/
theorem summary_magnitude_buckets_characterization (evs : List Event) :
    (get_summary_statistics (some evs)).mag_low = (evs.filter isLowE).length ∧
    (get_summary_statistics (some evs)).mag_medium = (evs.filter isMedE).length ∧
    (get_summary_statistics (some evs)).mag_high = (evs.filter isHighE).length := by
  unfold get_summary_statistics
  refine ⟨?_, ?_, ?_⟩
  · rw [foldl_mag_low]
    simp
  · rw [foldl_mag_medium]
    simp
  · rw [foldl_mag_high]
    simp

/-- C4 counterexample event: categories present, geometry empty, so the
summary loop raises at the date extraction. -/
def eNoGeom : Event :=
  { geometry := [], categories := [{ id := "wildfires", title := "Wildfires" }],
    magnitudeValue := .absent, hasMagnitudeUnit := false }

/-- C4 counterexample: the malformed event is counted into the per-category
aggregate (and into the total event count) before its per-event exception,
contradicting that a malformed event contributes to no aggregate. -/
theorem malformed_event_contributes_cex :
    (get_summary_statistics (some [eNoGeom])).categories = [("Wildfires", 1)] ∧
    (get_summary_statistics (some [eNoGeom])).event_count = 1 ∧
    (get_summary_statistics (some [eNoGeom])).daily_counts = [] :=
  ⟨rfl, rfl, rfl⟩

/-- C4 amended: a malformed event (here: categories `[c]` but empty
geometry) is skipped by filtering in its entirety, and skipped by summary
statistics only from the point of its parse failure onward: both
operations still succeed, the daily and magnitude aggregates exclude the
event, but the total event count and the per-category totals still include
it. -/
theorem malformed_event_skip_from_failure (pre post : List Event) (e : Event)
    (c : Category) (sd : String) (hg : e.geometry = []) (hc : e.categories = [c]) :
    get_filtered_events (some (pre ++ e :: post)) (some sd) none none .noneB .noneB =
      get_filtered_events (some (pre ++ post)) (some sd) none none .noneB .noneB ∧
    (get_summary_statistics (some (pre ++ e :: post))).event_count =
      (get_summary_statistics (some (pre ++ post))).event_count + 1 ∧
    (get_summary_statistics (some (pre ++ e :: post))).daily_counts =
      (get_summary_statistics (some (pre ++ post))).daily_counts ∧
    (get_summary_statistics (some (pre ++ e :: post))).mag_low =
      (get_summary_statistics (some (pre ++ post))).mag_low ∧
    (get_summary_statistics (some (pre ++ e :: post))).mag_medium =
      (get_summary_statistics (some (pre ++ post))).mag_medium ∧
    (get_summary_statistics (some (pre ++ e :: post))).mag_high =
      (get_summary_statistics (some (pre ++ post))).mag_high ∧
    ((get_summary_statistics (some (pre ++ e :: post))).categories.map Prod.snd).sum =
      ((get_summary_statistics (some (pre ++ post))).categories.map Prod.snd).sum + 1 := by
  have hke : keepEvent (some sd) none none Bound.noneB Bound.noneB e = none := by
    unfold keepEvent startCheck
    rw [hg]
    rfl
  have hdk : dailyKey e = none := by
    unfold dailyKey
    rw [hg, hc]
    rfl
  have hck : catKey e = some c.title := by
    unfold catKey
    rw [hc]
    rfl
  have hle : isLowE e = false := by
    simp [isLowE, magEvaluable, hg]
  have hme : isMedE e = false := by
    simp [isMedE, magEvaluable, hg]
  have hhe : isHighE e = false := by
    simp [isHighE, magEvaluable, hg]
  refine ⟨?_, ?_, ?_, ?_, ?_, ?_, ?_⟩
  · simp [get_filtered_events, List.filter_append, List.filter_cons, hke]
  · simp only [get_summary_statistics, foldl_event_count]
    simp
    omega
  · simp only [get_summary_statistics, foldl_daily]
    simp [List.filterMap_append, List.filterMap_cons, hdk]
  · simp only [get_summary_statistics, foldl_mag_low]
    simp [List.filter_append, List.filter_cons, hle]
  · simp only [get_summary_statistics, foldl_mag_medium]
    simp [List.filter_append, List.filter_cons, hme]
  · simp only [get_summary_statistics, foldl_mag_high]
    simp [List.filter_append, List.filter_cons, hhe]
  · simp only [get_summary_statistics, foldl_cats, foldl_bump_sum]
    simp [List.filterMap_append, List.filterMap_cons, hck]
    omega

/-- Witness for the amended C4 at a one-event cache. -/
theorem malformed_event_skip_from_failure_witness :
    eNoGeom.geometry = [] ∧
    eNoGeom.categories = [{ id := "wildfires", title := "Wildfires" }] ∧
    (get_filtered_events (some ([] ++ eNoGeom :: [])) (some "2024-01-01") none none
        .noneB .noneB =
      get_filtered_events (some ([] ++ [])) (some "2024-01-01") none none
        .noneB .noneB ∧
    (get_summary_statistics (some ([] ++ eNoGeom :: []))).event_count =
      (get_summary_statistics (some ([] ++ []))).event_count + 1 ∧
    (get_summary_statistics (some ([] ++ eNoGeom :: []))).daily_counts =
      (get_summary_statistics (some ([] ++ []))).daily_counts ∧
    (get_summary_statistics (some ([] ++ eNoGeom :: []))).mag_low =
      (get_summary_statistics (some ([] ++ []))).mag_low ∧
    (get_summary_statistics (some ([] ++ eNoGeom :: []))).mag_medium =
      (get_summary_statistics (some ([] ++ []))).mag_medium ∧
    (get_summary_statistics (some ([] ++ eNoGeom :: []))).mag_high =
      (get_summary_statistics (some ([] ++ []))).mag_high ∧
    ((get_summary_statistics (some ([] ++ eNoGeom :: []))).categories.map Prod.snd).sum =
      ((get_summary_statistics (some ([] ++ []))).categories.map Prod.snd).sum + 1) :=
  ⟨rfl, rfl, malformed_event_skip_from_failure [] [] eNoGeom
    { id := "wildfires", title := "Wildfires" } "2024-01-01" rfl rfl⟩

/-- Gregorian leap-year rule, as implemented by Python's datetime. -/
def isLeap (y : Nat) : Bool := y % 4 == 0 && (y % 100 != 0 || y % 400 == 0)

/-- Days in a month of the proleptic Gregorian calendar. -/
def daysInMonth (y m : Nat) : Nat :=
  if m = 2 then (if isLeap y then 29 else 28)
  else if m = 4 ∨ m = 6 ∨ m = 9 ∨ m = 11 then 30
  else 31

/-- Calendar date: the value datetime.strptime returns for a valid
year-month-day string. -/
structure Date where
  year : Nat
  month : Nat
  day : Nat
  deriving DecidableEq

/-- One-based ordinal of the date's day within its year. -/
def dayOfYear (d : Date) : Nat :=
  (List.range (d.month - 1)).foldl (fun acc i => acc + daysInMonth d.year (i + 1)) 0
    + d.day

/-- Days of the proleptic Gregorian calendar strictly before January 1 of
year y. -/
def daysBeforeYear (y : Nat) : Nat :=
  365 * (y - 1) + (y - 1) / 4 - (y - 1) / 100 + (y - 1) / 400

/-- Rata-die ordinal of a date (0001-01-01 is day 1). -/
def rataDie (d : Date) : Nat := daysBeforeYear d.year + dayOfYear d

/-- Monday-based weekday (0 = Monday .. 6 = Sunday), as Python's
date.weekday(); rata die 1 (0001-01-01) was a Monday. -/
def weekdayMon0 (d : Date) : Nat := (rataDie d + 6) % 7

/-- Zero-padded two-digit decimal rendering, as strftime's %m, %d and %W
produce for values below 100. -/
def pad2 (n : Nat) : String := if n < 10 then "0" ++ toString n else toString n

/-- Week number of strftime's %W directive: Monday as the first day of the
week, days before the year's first Monday falling in week 00. -/
def weekW (d : Date) : Nat := (dayOfYear d + 7 - weekdayMon0 d) / 7

/-- Period key of get_trend_analysis (app.py lines 294-299): %Y-%m for
monthly, %Y-W%W for weekly, %Y-%m-%d for any other period value. -/
def trendKey (period : String) (d : Date) : String :=
  if period = "monthly" then toString d.year ++ "-" ++ pad2 d.month
  else if period = "weekly" then toString d.year ++ "-W" ++ pad2 (weekW d)
  else toString d.year ++ "-" ++ pad2 d.month ++ "-" ++ pad2 d.day

/-- Parse of datetime.strptime(s, %Y-%m-%d) restricted to the zero-padded
calendar form the feed delivers: four digit year, dash, two digit month,
dash, two digit day, with month and day validated against the calendar. -/
def parseDate10 (s : String) : Option Date :=
  match s.data with
  | [y1, y2, y3, y4, h1, m1, m2, h2, a1, a2] =>
    if y1.isDigit ∧ y2.isDigit ∧ y3.isDigit ∧ y4.isDigit ∧ h1 = '-' ∧
        m1.isDigit ∧ m2.isDigit ∧ h2 = '-' ∧ a1.isDigit ∧ a2.isDigit then
      let y := ((y1.toNat - 48) * 10 + (y2.toNat - 48)) * 100 +
        ((y3.toNat - 48) * 10 + (y4.toNat - 48))
      let mo := (m1.toNat - 48) * 10 + (m2.toNat - 48)
      let da := (a1.toNat - 48) * 10 + (a2.toNat - 48)
      if 1 ≤ mo ∧ mo ≤ 12 ∧ 1 ≤ da ∧ da ≤ daysInMonth y mo then
        some ⟨y, mo, da⟩
      else none
    else none
  | _ => none

/-- Trend-analysis key of one event (lines 293-299): the representative
date is parsed and formatted by period; none models the uncaught exception
raised on missing geometry or an unparsable date. -/
def eventKey (period : String) (e : Event) : Option String :=
  match e.geometry.head? with
  | none => none
  | some g =>
    match parseDate10 (g.date.take 10) with
    | none => none
    | some d => some (trendKey period d)

/-- The bucket-building loop of get_trend_analysis (lines 291-301): an
insertion-ordered dict of per-key counts; none models the uncaught
per-event exception aborting the whole call. -/
def buildPeriods (period : String) (acc : List (String × Nat)) :
    List Event → Option (List (String × Nat))
  | [] => some acc
  | e :: rest =>
    match eventKey period e with
    | none => none
    | some k => buildPeriods period (bump acc k) rest

/-- Result record of get_trend_analysis (lines 306-313); trend and average
are exact rationals. -/
structure Trend where
  periods : List String
  counts : List Nat
  trend : ℚ
  average : ℚ
  max : Nat
  min : Nat
  deriving DecidableEq

/-- Python max over a list of naturals, 0 when empty (the empty case is
guarded by the caller). -/
def listMax : List Nat → Nat
  | [] => 0
  | c :: rest => rest.foldl Nat.max c

/-- Python min over a list of naturals, 0 when empty. -/
def listMin : List Nat → Nat
  | [] => 0
  | c :: rest => rest.foldl Nat.min c

/-- The get_trend_analysis operation (lines 287-313): filter by category,
bucket by period key in first-seen order, then derive the two-point slope
and the aggregate stats; none models the uncaught exception raised while
bucketing a malformed event. -/
def get_trend_analysis (cache : Option (List Event)) (category : Option String)
    (period : String) : Option Trend :=
  match buildPeriods period []
      (get_filtered_events cache none none category .noneB .noneB) with
  | none => none
  | some ps =>
    let counts := ps.map Prod.snd
    some
      { periods := ps.map Prod.fst
        counts := counts
        trend := if 1 < counts.length then
            ((counts.getLastD 0 : ℚ) - (counts.headD 0 : ℚ)) / (counts.length : ℚ)
          else 0
        average := if counts.length ≠ 0 then
            ((counts.sum : ℚ) / (counts.length : ℚ)) else 0
        max := listMax counts
        min := listMin counts }

/-- C7: trend is the two-point slope (last bucket count minus first bucket
count) divided by the number of buckets when at least two buckets exist
and 0 otherwise; with zero matching events the result is all empty lists
and zeros. -/
theorem trend_formula_and_empty (cache : Option (List Event))
    (category : Option String) (period : String) (t : Trend)
    (h : get_trend_analysis cache category period = some t) :
    (t.trend = if 1 < t.counts.length then
        ((t.counts.getLastD 0 : ℚ) - (t.counts.headD 0 : ℚ)) / (t.counts.length : ℚ)
      else 0) ∧
    (t.average = if t.counts.length ≠ 0 then
        ((t.counts.sum : ℚ) / (t.counts.length : ℚ)) else 0) ∧
    (get_filtered_events cache none none category .noneB .noneB = [] →
      t = ⟨[], [], 0, 0, 0, 0⟩) := by
  unfold get_trend_analysis at h
  cases hb : buildPeriods period []
      (get_filtered_events cache none none category .noneB .noneB) with
  | none =>
    rw [hb] at h
    exact absurd h (by simp)
  | some ps =>
    rw [hb] at h
    simp only [Option.some.injEq] at h
    subst h
    refine ⟨rfl, rfl, ?_⟩
    intro hemp
    rw [hemp] at hb
    simp only [buildPeriods, Option.some.injEq] at hb
    subst hb
    rfl

/-- The all-zero trend result. -/
def emptyTrend : Trend := ⟨[], [], 0, 0, 0, 0⟩

/-- Witness for C7 at the empty cache. -/
theorem trend_formula_and_empty_witness :
    get_trend_analysis (some []) none "monthly" = some emptyTrend ∧
    ((emptyTrend.trend = if 1 < emptyTrend.counts.length then
        ((emptyTrend.counts.getLastD 0 : ℚ) - (emptyTrend.counts.headD 0 : ℚ)) /
          (emptyTrend.counts.length : ℚ)
      else 0) ∧
    (emptyTrend.average = if emptyTrend.counts.length ≠ 0 then
        ((emptyTrend.counts.sum : ℚ) / (emptyTrend.counts.length : ℚ)) else 0) ∧
    (get_filtered_events (some []) none none none .noneB .noneB = [] →
      emptyTrend = ⟨[], [], 0, 0, 0, 0⟩)) :=
  ⟨rfl, trend_formula_and_empty (some []) none "monthly" emptyTrend rfl⟩

/-- First occurrences of the keys not yet seen, in first-seen order. -/
def firstSeen (seen : List String) : List String → List String
  | [] => []
  | k :: rest =>
    if k ∈ seen then firstSeen seen rest else k :: firstSeen (k :: seen) rest

/-- Dict lookup with default 0. -/
def lookupD (l : List (String × Nat)) (k : String) : Nat :=
  match l with
  | [] => 0
  | (k', v) :: rest => if k' = k then v else lookupD rest k

/-- Bumping a fresh key appends it with count one. -/
theorem bump_fst_not_mem (l : List (String × Nat)) (k : String)
    (h : k ∉ l.map Prod.fst) : bump l k = l ++ [(k, 1)] := by
  induction l with
  | nil => rfl
  | cons p rest ih =>
    obtain ⟨k', v⟩ := p
    simp only [List.map_cons, List.mem_cons] at h
    push_neg at h
    simp [bump, Ne.symm h.1, ih h.2]

/-- firstSeen only consults membership of the seen list. -/
theorem firstSeen_congr (s1 s2 : List String) (l : List String)
    (h : ∀ x, x ∈ s1 ↔ x ∈ s2) : firstSeen s1 l = firstSeen s2 l := by
  induction l generalizing s1 s2 with
  | nil => rfl
  | cons k rest ih =>
    by_cases hk : k ∈ s1
    · simp [firstSeen, hk, (h k).mp hk, ih s1 s2 h]
    · have hk2 : k ∉ s2 := fun hx => hk ((h k).mpr hx)
      simp only [firstSeen, if_neg hk, if_neg hk2]
      rw [ih (k :: s1) (k :: s2) (fun x => by simp [h x])]

/-- Keys of a bump fold: the initial keys followed by the unseen keys in
first-seen order. -/
theorem foldl_bump_keys (ks : List String) (acc : List (String × Nat)) :
    (ks.foldl bump acc).map Prod.fst =
      acc.map Prod.fst ++ firstSeen (acc.map Prod.fst) ks := by
  induction ks generalizing acc with
  | nil => simp [firstSeen]
  | cons k rest ih =>
    rw [List.foldl_cons, ih]
    by_cases hk : k ∈ acc.map Prod.fst
    · rw [bump_fst_of_mem _ _ hk]
      simp [firstSeen, hk]
    · rw [bump_fst_not_mem _ _ hk]
      simp only [firstSeen, if_neg hk, List.map_append, List.map_cons, List.map_nil]
      rw [firstSeen_congr (acc.map Prod.fst ++ [k]) (k :: acc.map Prod.fst) rest
        (fun x => by simp [or_comm])]
      simp

/-- Bumping increments the bumped key's count. -/
theorem bump_lookupD_self (l : List (String × Nat)) (k : String) :
    lookupD (bump l k) k = lookupD l k + 1 := by
  induction l with
  | nil => simp [bump, lookupD]
  | cons p rest ih =>
    obtain ⟨k', v⟩ := p
    by_cases h : k' = k
    · simp [bump, lookupD, h]
    · simp [bump, lookupD, h, ih]

/-- Bumping leaves every other key's count unchanged. -/
theorem bump_lookupD_other (l : List (String × Nat)) (k k' : String)
    (h : k ≠ k') : lookupD (bump l k) k' = lookupD l k' := by
  induction l with
  | nil => simp [bump, lookupD, h]
  | cons p rest ih =>
    obtain ⟨a, v⟩ := p
    by_cases ha : a = k
    · simp [bump, lookupD, ha, h]
    · simp [bump, lookupD, ha, ih]

/-- A bump fold's final count at any key is its initial count plus the
key's multiplicity in the folded list. -/
theorem foldl_bump_lookupD (ks : List String) (acc : List (String × Nat))
    (k : String) :
    lookupD (ks.foldl bump acc) k = lookupD acc k + ks.count k := by
  induction ks generalizing acc with
  | nil => simp
  | cons j rest ih =>
    rw [List.foldl_cons, ih]
    by_cases hj : j = k
    · subst hj
      rw [bump_lookupD_self]
      simp [List.count_cons]
      omega
    · rw [bump_lookupD_other _ _ _ hj]
      simp [List.count_cons, hj]

/-- The unseen first occurrences are distinct and disjoint from the seen
list. -/
theorem firstSeen_nodup (l : List String) (seen : List String) :
    (firstSeen seen l).Nodup ∧ ∀ x ∈ firstSeen seen l, x ∉ seen := by
  induction l generalizing seen with
  | nil => simp [firstSeen]
  | cons k rest ih =>
    by_cases hk : k ∈ seen
    · simpa [firstSeen, hk] using ih seen
    · obtain ⟨ihn, ihs⟩ := ih (k :: seen)
      simp only [firstSeen, if_neg hk]
      constructor
      · refine List.nodup_cons.mpr ⟨fun hx => ?_, ihn⟩
        exact (ihs k hx) (List.mem_cons_self k seen)
      · intro x hx
        rcases List.mem_cons.mp hx with hx | hx
        · subst hx
          exact hk
        · intro hs
          exact (ihs x hx) (List.mem_cons_of_mem k hs)

/-- In a dict with distinct keys, each entry's value is its key's lookup. -/
theorem nodup_keys_snd (l : List (String × Nat))
    (h : (l.map Prod.fst).Nodup) :
    l.map Prod.snd = (l.map Prod.fst).map (lookupD l) := by
  induction l with
  | nil => rfl
  | cons p rest ih =>
    obtain ⟨k, v⟩ := p
    simp only [List.map_cons, List.nodup_cons] at h
    have h1 : lookupD ((k, v) :: rest) k = v := by simp [lookupD]
    have h2 : (rest.map Prod.fst).map (lookupD ((k, v) :: rest)) =
        (rest.map Prod.fst).map (lookupD rest) := by
      refine List.map_congr_left (fun x hx => ?_)
      have hne : k ≠ x := fun he => h.1 (he ▸ hx)
      simp [lookupD, hne]
    simp only [List.map_cons, h1, h2]
    rw [← ih h.2]

/-- A successful bucket build is the bump fold over the defined keys, and
every folded event had a defined key. -/
theorem buildPeriods_some (period : String) (evs : List Event)
    (acc ps : List (String × Nat))
    (h : buildPeriods period acc evs = some ps) :
    ps = (evs.filterMap (eventKey period)).foldl bump acc ∧
      ∀ e ∈ evs, (eventKey period e).isSome := by
  induction evs generalizing acc with
  | nil =>
    simp only [buildPeriods, Option.some.injEq] at h
    simp [h.symm]
  | cons e rest ih =>
    simp only [buildPeriods] at h
    cases hk : eventKey period e with
    | none => rw [hk] at h; exact absurd h (by simp)
    | some k =>
      rw [hk] at h
      obtain ⟨h1, h2⟩ := ih (bump acc k) h
      refine ⟨?_, ?_⟩
      · simp [List.filterMap_cons, hk, h1]
      · intro x hx
        rcases List.mem_cons.mp hx with hx | hx
        · subst hx
          simp [hk]
        · exact h2 x hx

/-- C2 amended: trend analysis buckets every event by the period key of its
representative date (year-month for monthly; for weekly the year plus the
Monday-based strftime %W week-of-year number, where days before the year's
first Monday fall in week 00 — not the ISO week; the reformatted calendar
day otherwise), with buckets reported in first-seen order and counts the
key multiplicities. -/
theorem trend_buckets_first_seen_characterization (cache : Option (List Event))
    (category : Option String) (period : String) (t : Trend)
    (h : get_trend_analysis cache category period = some t) :
    t.periods = firstSeen []
      ((get_filtered_events cache none none category .noneB .noneB).filterMap
        (eventKey period)) ∧
    t.counts = (firstSeen []
      ((get_filtered_events cache none none category .noneB .noneB).filterMap
        (eventKey period))).map
      (fun k => ((get_filtered_events cache none none category .noneB
        .noneB).filterMap (eventKey period)).count k) ∧
    ∀ e ∈ get_filtered_events cache none none category .noneB .noneB,
      (eventKey period e).isSome := by
  unfold get_trend_analysis at h
  cases hb : buildPeriods period []
      (get_filtered_events cache none none category .noneB .noneB) with
  | none =>
    rw [hb] at h
    exact absurd h (by simp)
  | some ps =>
    rw [hb] at h
    simp only [Option.some.injEq] at h
    subst h
    obtain ⟨hps, hall⟩ := buildPeriods_some _ _ _ _ hb
    have hkeys : ps.map Prod.fst = firstSeen []
        ((get_filtered_events cache none none category .noneB .noneB).filterMap
          (eventKey period)) := by
      rw [hps, foldl_bump_keys]
      simp
    have hlook : lookupD ps = fun k =>
        ((get_filtered_events cache none none category .noneB .noneB).filterMap
          (eventKey period)).count k := by
      funext k
      rw [hps, foldl_bump_lookupD]
      simp [lookupD]
    refine ⟨hkeys, ?_, hall⟩
    show ps.map Prod.snd = _
    rw [nodup_keys_snd ps (by rw [hkeys]; exact (firstSeen_nodup _ _).1),
      hkeys, hlook]

/-- C2 counterexample event, dated January 1, 2023 (a Sunday, which ISO
8601 assigns to week 52 of 2022). -/
def eJan1 : Event :=
  { geometry := [{ date := "2023-01-01T00:00:00Z", coordinates := none,
                   magnitudeValue := .absent, hasMagnitudeUnit := false }],
    categories := [{ id := "severeStorms", title := "Severe Storms" }],
    magnitudeValue := .absent, hasMagnitudeUnit := false }

/-- Modelled from the spec: number of ISO 8601 weeks of a year (53 exactly
when January 1 is a Thursday, or a Wednesday in a leap year). -/
def isoWeeksInYear (y : Nat) : Nat :=
  if weekdayMon0 ⟨y, 1, 1⟩ = 3 ∨ (isLeap y ∧ weekdayMon0 ⟨y, 1, 1⟩ = 2) then 53
  else 52

/-- Modelled from the spec: ISO 8601 week-numbering year and week number of
a date (weeks run Monday to Sunday, numbered from 01; a week belongs to the
year containing its Thursday). -/
def isoWeekPair (d : Date) : Nat × Nat :=
  let w := (dayOfYear d + 10 - (weekdayMon0 d + 1)) / 7
  if w = 0 then (d.year - 1, isoWeeksInYear (d.year - 1))
  else if isoWeeksInYear d.year < w then (d.year + 1, 1)
  else (d.year, w)

/-- Modelled from the spec: the ISO-week string YYYY-W## named by the
claim's weekly period key. -/
def isoWeekKey (d : Date) : String :=
  toString (isoWeekPair d).1 ++ "-W" ++ pad2 (isoWeekPair d).2

/-- C2 counterexample: the weekly bucket key of an event dated 2023-01-01
is the strftime %W string 2023-W00, while the ISO-week string of that date
is 2022-W52 (ISO weeks are numbered from 01 within the week-numbering
year, which here is 2022, not 2023). -/
theorem weekly_key_not_iso_cex :
    parseDate10 "2023-01-01" = some ⟨2023, 1, 1⟩ ∧
    (get_trend_analysis (some [eJan1]) none "weekly").map Trend.periods =
      some ["2023-W00"] ∧
    isoWeekKey ⟨2023, 1, 1⟩ = "2022-W52" ∧
    ("2023-W00" : String) ≠ "2022-W52" := by
  refine ⟨by decide, by rfl, by decide, by decide⟩

/-- Witness for the amended C2 at a one-event cache, monthly period. -/
theorem trend_buckets_first_seen_witness :
    get_trend_analysis (some [eJan1]) none "monthly" =
      some ⟨["2023-01"], [1], 0, 1, 1, 1⟩ ∧
    ((⟨["2023-01"], [1], 0, 1, 1, 1⟩ : Trend).periods = firstSeen []
      ((get_filtered_events (some [eJan1]) none none none .noneB .noneB).filterMap
        (eventKey "monthly")) ∧
    (⟨["2023-01"], [1], 0, 1, 1, 1⟩ : Trend).counts = (firstSeen []
      ((get_filtered_events (some [eJan1]) none none none .noneB .noneB).filterMap
        (eventKey "monthly"))).map
      (fun k => ((get_filtered_events (some [eJan1]) none none none .noneB
        .noneB).filterMap (eventKey "monthly")).count k) ∧
    ∀ e ∈ get_filtered_events (some [eJan1]) none none none .noneB .noneB,
      (eventKey "monthly" e).isSome) := by
  have ht : get_trend_analysis (some [eJan1]) none "monthly" =
      some ⟨["2023-01"], [1], 0, 1, 1, 1⟩ := by
    have hb : buildPeriods "monthly" []
        (get_filtered_events (some [eJan1]) none none none .noneB .noneB) =
        some [("2023-01", 1)] := rfl
    unfold get_trend_analysis
    rw [hb]
    norm_num [listMax, listMin]
  exact ⟨ht,
    trend_buckets_first_seen_characterization (some [eJan1]) none "monthly" _ ht⟩

/-- Concrete event with a resolved effective magnitude of 2 for the C3
witness. -/
def eMag2 : Event :=
  { geometry := [], categories := [], magnitudeValue := .parsable 2,
    hasMagnitudeUnit := false }

/-- Witness for C3 at the bound range [1, 3]. -/
theorem magnitude_filter_range_witness :
    Bound.wellFormed (.val 1) ∧ Bound.wellFormed (.val 3) ∧
    ((Bound.val 1 ≠ Bound.noneB) ∨ ((Bound.val 3 : Bound) ≠ Bound.noneB)) ∧
    ((∀ m, resolveMagnitude eMag2 = some m →
      (keepEvent none none none (.val 1) (.val 3) eMag2 = some true ↔
        withinRange (.val 1) (.val 3) m)) ∧
    (resolveMagnitude eMag2 = none →
      keepEvent none none none (.val 1) (.val 3) eMag2 = some true)) :=
  ⟨trivial, trivial, Or.inl (by simp),
    magnitude_filter_range_spec eMag2 (.val 1) (.val 3) trivial trivial
      (Or.inl (by simp))⟩

end EONET
